import Mathlib

/-!
Verification of the directory tree visualizer
(`src/directory_tree_visualizer.py`) against its specification.

The filesystem is modelled abstractly: an `FSEntry` is either a file
(with a name, a byte size, a modification-time string, and a flag `ok`
telling whether `stat` succeeds on it) or a directory (with a name, a
list of contained entries, and a flag `readable` telling whether
`iterdir` succeeds on it).  Paths are plain strings; a child's path is
its parent's path, `"/"`, and its name, matching `str(item)` on POSIX.

Python floating point arithmetic inside `format_size` is modelled by
exact rational arithmetic carried as (integer, power-of-1024) pairs.
Division of an integer below 2^53 by 1024 is exact in IEEE double
precision, and Python's `"%.1f"` formatting rounds the value half to
even, so the model agrees with CPython on every size below 2^53.
-/

/-- One entry of the abstract filesystem.  `ok` models whether `stat`
succeeds on the file; `readable` models whether `iterdir` succeeds on
the directory (`OSError`/`PermissionError` are raised otherwise). -/
inductive FSEntry where
  | file (name : String) (size : Nat) (mtime : String) (ok : Bool)
  | dir (name : String) (entries : List FSEntry) (readable : Bool)

/-- Base name of an entry (`item.name` in the source). -/
def FSEntry.name : FSEntry → String
  | .file n _ _ _ => n
  | .dir n _ _ => n

/-- Python `item.is_file()`. -/
def FSEntry.isFile : FSEntry → Bool
  | .file _ _ _ _ => true
  | .dir _ _ _ => false

/-- A node of the tree built by the scanner: the dictionaries created in
`_scan_recursive` (a directory node has keys `name, path, type, size,
children, file_count, folder_count`; a file node has `name, path, type,
size, extension, modified`). -/
inductive Node where
  | dir (name path : String) (size : Nat) (children : List Node)
      (file_count folder_count : Nat)
  | file (name path : String) (size : Nat) (extension modified : String)

def Node.name : Node → String
  | .dir n _ _ _ _ _ => n
  | .file n _ _ _ _ => n

def Node.path : Node → String
  | .dir _ p _ _ _ _ => p
  | .file _ p _ _ _ => p

def Node.size : Node → Nat
  | .dir _ _ s _ _ _ => s
  | .file _ _ s _ _ => s

def Node.children : Node → List Node
  | .dir _ _ _ c _ _ => c
  | .file _ _ _ _ _ => []

def Node.file_count : Node → Nat
  | .dir _ _ _ _ fc _ => fc
  | .file _ _ _ _ _ => 0

def Node.folder_count : Node → Nat
  | .dir _ _ _ _ _ dc => dc
  | .file _ _ _ _ _ => 0

def Node.isDir : Node → Bool
  | .dir _ _ _ _ _ _ => true
  | .file _ _ _ _ _ => false

/-- The keyword arguments of `scan_directory`, bundled. -/
structure ScanConfig where
  max_depth : Option Nat
  show_hidden : Bool
  include_files : Bool
  extensions : Option (List String)
  size_filter : Option (Nat × Nat)
deriving Repr, DecidableEq

/-- The three global counters mutated by `_scan_recursive`
(`self.file_count`, `self.folder_count`, `self.total_size`). -/
structure Globals where
  file_count : Nat
  folder_count : Nat
  total_size : Nat
deriving Repr, DecidableEq

/-- The mutable state of a `DirectoryTreeVisualizer` object. -/
structure Visualizer where
  tree_data : Option Node
  root_path : Option String
  file_count : Nat
  folder_count : Nat
  total_size : Nat

/-- The state set up by `DirectoryTreeVisualizer.__init__`. -/
def initVisualizer : Visualizer :=
  { tree_data := none, root_path := none,
    file_count := 0, folder_count := 0, total_size := 0 }

/-- The two fatal scan errors: `FileNotFoundError` and `ValueError`. -/
inductive ScanError where
  | notFound (path : String)
  | notADirectory (path : String)
deriving Repr, DecidableEq

/-- Python `str.lower`, character by character (`Char.toLower` handles the
ASCII range; the sources' names and extensions are ASCII). -/
def strLower (s : String) : String := String.mk (s.toList.map Char.toLower)

/-- Code-point lexicographic comparison of strings, as Python compares
`str` values. -/
def lexLE : List Char → List Char → Bool
  | [], _ => true
  | _ :: _, [] => false
  | a :: as, b :: bs => if a = b then lexLE as bs else decide (a < b)

/-- Python `name.startswith('.')`. -/
def startsDot (s : String) : Bool :=
  match s.toList with
  | '.' :: _ => true
  | _ => false

/-- Sort key comparison for `items.sort(key=lambda x: (x.is_file(), x.name.lower()))`:
lexicographic on the pair (is_file, lower-cased name), directories first. -/
def entry_le (a b : FSEntry) : Bool :=
  (!a.isFile && b.isFile) ||
    (a.isFile == b.isFile && lexLE (strLower a.name).toList (strLower b.name).toList)

/-- Stable insertion of an entry into an already sorted list (kept before
any later entry with an equal key). -/
def insertEntry (e : FSEntry) : List FSEntry → List FSEntry
  | [] => [e]
  | x :: xs => if entry_le e x then e :: x :: xs else x :: insertEntry e xs

/-- Stable sort by `entry_le`; Python's `list.sort` is a stable sort by
the same key, and a stable sort by a total key comparison is a unique
function of the input list, so this computes exactly the source's order. -/
def sortEntries : List FSEntry → List FSEntry
  | [] => []
  | e :: es => insertEntry e (sortEntries es)

/-- Index of the last `'.'` in a character list, if any. -/
def lastDot : List Char → Option Nat
  | [] => none
  | c :: cs =>
    match lastDot cs with
    | some i => some (i + 1)
    | none => if c = '.' then some 0 else none

/-- Python `pathlib.PurePath.suffix`: the final component's extension including
the leading dot (`name[i:]` when `0 < i < len(name) - 1` for the last
dot position `i`, otherwise the empty string). -/
def pathSuffix (name : String) : String :=
  let cs := name.toList
  match lastDot cs with
  | some i => if 0 < i ∧ i < cs.length - 1 then String.mk (cs.drop i) else ""
  | none => ""

/-- The hidden-entry test: `not show_hidden and item.name.startswith('.')`. -/
def hiddenSkip (show_hidden : Bool) (name : String) : Bool :=
  !show_hidden && startsDot name

/-- The extension-filter test (`extensions and item.suffix.lower() not in
[ext.lower() for ext in extensions]`); an empty list is falsy in Python,
hence filters nothing. -/
def extSkip (extensions : Option (List String)) (suffix : String) : Bool :=
  match extensions with
  | none => false
  | some exts =>
    !exts.isEmpty && !(exts.map strLower).contains (strLower suffix)

/-- The size-filter test (`file_size < min_size or file_size > max_size`);
a pair is always truthy in Python.  The float bounds are modelled as
naturals: byte sizes are integers, so only integral thresholds matter. -/
def sizeSkip (size_filter : Option (Nat × Nat)) (sz : Nat) : Bool :=
  match size_filter with
  | none => false
  | some (mn, mx) => sz < mn || sz > mx

/-- Python `str(item)`: the parent path joined with the base name. -/
def childPath (parent name : String) : String := parent ++ "/" ++ name

/-- The depth test `max_depth is not None and current_depth >= max_depth`. -/
def depthLimited : Option Nat → Nat → Bool
  | some m, d => m ≤ d
  | none, _ => false

/-! ### `format_size`

The loop `while size_bytes >= 1024 and i < len(size_names) - 1` divides
by `1024.0`; after `i` iterations the float value is exactly
`size_bytes / 1024 ^ i`, so the continuation test is `1024 ^ (i+1) ≤
size_bytes`.  The loop runs at most 4 times (`i < 4`), which the fuel
argument makes structural. -/

def fsLoopF : Nat → Nat → Nat → Nat
  | 0, _, i => i
  | fuel + 1, n, i => if 1024 ^ (i + 1) ≤ n then fsLoopF fuel n (i + 1) else i

/-- The number of divisions by 1024 performed by `format_size`'s loop. -/
def sizeUnit (n : Nat) : Nat := fsLoopF 4 n 0

/-- Round `num / den` half to even to the nearest integer (`den > 0`);
this is how CPython's `"%.1f"` rounds an exactly representable value. -/
def round1f (num den : Nat) : Nat :=
  let q := num / den
  let r := num % den
  if 2 * r < den then q
  else if den < 2 * r then q + 1
  else if q % 2 = 0 then q else q + 1

def size_names : List String := ["B", "KB", "MB", "GB", "TB"]

/-- The function `DirectoryTreeVisualizer.format_size`.  Here `r` is the value
`size_bytes / 1024 ^ i` rounded half-even to one decimal, scaled by 10;
the rendered string is `f"{value:.1f} {size_names[i]}"`. -/
def format_size (size_bytes : Nat) : String :=
  if size_bytes = 0 then "0 B"
  else
    let i := sizeUnit size_bytes
    let r := round1f (size_bytes * 10) (1024 ^ i)
    toString (r / 10) ++ "." ++ toString (r % 10) ++ " " ++ size_names.getD i "B"

/-! ### The scanner (`_scan_recursive` and `scan_directory`) -/

theorem sizeOf_insertEntry (e : FSEntry) (l : List FSEntry) :
    sizeOf (insertEntry e l) = 1 + sizeOf e + sizeOf l := by
  induction l with
  | nil => simp [insertEntry]
  | cons x xs ih =>
    simp only [insertEntry]
    split
    all_goals simp [ih]
    all_goals omega

theorem sizeOf_sortEntries (l : List FSEntry) :
    sizeOf (sortEntries l) = sizeOf l := by
  induction l with
  | nil => rfl
  | cons x xs ih => simp [sortEntries, sizeOf_insertEntry, ih]

mutual

/-- The method `DirectoryTreeVisualizer._scan_recursive`, called on the directory
with base name `name`, full path `path` and contents `entries`
(`readable = false` models `iterdir` raising, in which case the `except`
branch returns the node with no children).  The `Globals` argument
threads the mutation of `self.file_count` / `self.folder_count` /
`self.total_size`. -/
def scan_recursive (name path : String) (entries : List FSEntry) (readable : Bool)
    (depth : Nat) (cfg : ScanConfig) (g : Globals) : Node × Globals :=
  if depthLimited cfg.max_depth depth then (Node.dir name path 0 [] 0 0, g)
  else if readable then
    scanItems name path (sortEntries entries) depth cfg 0 [] 0 0 g
  else (Node.dir name path 0 [] 0 0, g)
termination_by (sizeOf entries, 1)
decreasing_by
  rw [sizeOf_sortEntries]
  apply Prod.Lex.right
  omega

/-- The `for item in items` loop in `_scan_recursive`, processing the
already sorted entries; `size`, `children`, `fc`, `dc` accumulate the
fields of the directory node under construction. -/
def scanItems (dname dpath : String) (items : List FSEntry) (depth : Nat)
    (cfg : ScanConfig) (size : Nat) (children : List Node) (fc dc : Nat)
    (g : Globals) : Node × Globals :=
  match items with
  | [] => (Node.dir dname dpath size children fc dc, g)
  | item :: rest =>
    if hiddenSkip cfg.show_hidden item.name then
      scanItems dname dpath rest depth cfg size children fc dc g
    else
      match item with
      | .dir cname centries creadable =>
        let r := scan_recursive cname (childPath dpath cname) centries creadable
          (depth + 1) cfg g
        scanItems dname dpath rest depth cfg (size + r.1.size)
          (children ++ [r.1]) (fc + r.1.file_count)
          (dc + r.1.folder_count + 1)
          ⟨r.2.file_count, r.2.folder_count + 1, r.2.total_size⟩
      | .file fname fsize fmtime fok =>
        if cfg.include_files then
          if !fok then
            scanItems dname dpath rest depth cfg size children fc dc g
          else if extSkip cfg.extensions (pathSuffix fname) then
            scanItems dname dpath rest depth cfg size children fc dc g
          else if sizeSkip cfg.size_filter fsize then
            scanItems dname dpath rest depth cfg size children fc dc g
          else
            scanItems dname dpath rest depth cfg (size + fsize)
              (children ++ [Node.file fname (childPath dpath fname) fsize
                (pathSuffix fname) fmtime])
              (fc + 1) dc
              ⟨g.file_count + 1, g.folder_count, g.total_size + fsize⟩
        else
          scanItems dname dpath rest depth cfg size children fc dc g
termination_by (sizeOf items, 0)

end

/-- The method `DirectoryTreeVisualizer.scan_directory`.  Here `resolved` is the result
of `Path(path).resolve()` and `target` what the filesystem holds at that
resolved path (`none`: nothing exists there; a file: `is_dir` fails; a
directory: the scan proceeds on its name and contents).  The returned
pair carries the raised-or-returned outcome together with the object
state after the call. -/
def scan_directory (v : Visualizer) (path resolved : String)
    (target : Option FSEntry) (cfg : ScanConfig) :
    Except ScanError Node × Visualizer :=
  let v1 : Visualizer :=
    { v with root_path := some resolved, file_count := 0, folder_count := 0,
             total_size := 0 }
  match target with
  | none => (Except.error (ScanError.notFound path), v1)
  | some (FSEntry.file _ _ _ _) => (Except.error (ScanError.notADirectory path), v1)
  | some (FSEntry.dir dn des dr) =>
    let r := scan_recursive dn resolved des dr 0 cfg
      { file_count := 0, folder_count := 0, total_size := 0 }
    (Except.ok r.1,
      { v1 with tree_data := some r.1, file_count := r.2.file_count,
                folder_count := r.2.folder_count, total_size := r.2.total_size })

/-! ### The text renderer (`render_text_tree` / `_render_node_text`) -/

/-- One glyph set of `self.styles`. -/
structure StyleChars where
  branch : String
  last : String
  vertical : String
  space : String
deriving Repr, DecidableEq

/-- The lookup `self.styles.get(style, self.styles['unicode'])`. -/
def styles (style : String) : StyleChars :=
  if style = "unicode" then ⟨"├── ", "└── ", "│   ", "    "⟩
  else if style = "ascii" then ⟨"|-- ", "`-- ", "|   ", "    "⟩
  else if style = "simple" then ⟨"  ", "  ", "  ", "  "⟩
  else ⟨"├── ", "└── ", "│   ", "    "⟩

/-- The `icon_map` dictionary of `_get_file_icon`. -/
def icon_map : List (String × String) :=
  [(".py", "🐍"), (".js", "📜"), (".html", "🌐"), (".css", "🎨"),
   (".jpg", "🖼️"), (".png", "🖼️"), (".gif", "🖼️"), (".svg", "🖼️"),
   (".mp4", "🎬"), (".avi", "🎬"), (".mkv", "🎬"), (".mov", "🎬"),
   (".mp3", "🎵"), (".wav", "🎵"), (".flac", "🎵"), (".ogg", "🎵"),
   (".pdf", "📄"), (".doc", "📝"), (".docx", "📝"), (".txt", "📄"),
   (".zip", "📦"), (".rar", "📦"), (".7z", "📦"), (".tar", "📦"),
   (".exe", "⚙️"), (".msi", "⚙️"), (".deb", "⚙️"), (".rpm", "⚙️"),
   (".json", "📋"), (".xml", "📋"), (".yml", "📋"), (".yaml", "📋"),
   (".md", "📖"), (".readme", "📖")]

/-- The method `DirectoryTreeVisualizer._get_file_icon`. -/
def get_file_icon (extension : String) : String :=
  (icon_map.lookup (strLower extension)).getD "📄"

/-- The icon and the annotated name composed for one node by
`_render_node_text` (before prefix, connector and truncation). -/
def node_label : Node → Bool → Bool → String × String
  | .dir nm _ size _ fc dc, show_size, show_count =>
    let info1 :=
      if show_count && decide (0 < fc + dc) then [toString (fc + dc) ++ " items"]
      else []
    let info2 := if show_size && decide (0 < size) then [format_size size] else []
    let info := info1 ++ info2
    ("📁",
      if info.isEmpty then nm
      else nm ++ " (" ++ String.intercalate ", " info ++ ")")
  | .file nm _ size ext _, show_size, _ =>
    (get_file_icon ext,
      if show_size then nm ++ " (" ++ format_size size ++ ")" else nm)

/-- The composed line `f"{prefix}{connector}{icon} {name}"`. -/
def composedLine (pref : String) (is_last : Bool) (sc : StyleChars)
    (icon nm : String) : String :=
  pref ++ (if is_last then sc.last else sc.branch) ++ icon ++ " " ++ nm

/-- Python slice `line[:k]`, also for negative `k` (count from the end,
clamped at the empty string), by code points. -/
def pySliceTo (s : String) (k : Int) : String :=
  if 0 ≤ k then String.mk (s.toList.take k.toNat)
  else String.mk (s.toList.take (s.length - k.natAbs))

/-- The truncation `if len(line) > max_width: line = line[:max_width-3] + "..."`. -/
def truncLine (line : String) (max_width : Nat) : String :=
  if max_width < line.length then pySliceTo line ((max_width : Int) - 3) ++ "..."
  else line

mutual

/-- The method `DirectoryTreeVisualizer._render_node_text`: returns the `lines`
accumulator with this node's line and its subtree's lines appended. -/
def render_node_text (node : Node) (pref : String) (is_last : Bool)
    (sc : StyleChars) (show_size show_count : Bool) (max_width : Nat)
    (lines : List String) : List String :=
  let lab := node_label node show_size show_count
  let line := truncLine (composedLine pref is_last sc lab.1 lab.2) max_width
  let lines1 := lines ++ [line]
  match node with
  | .dir _ _ _ children _ _ =>
    if children.isEmpty then lines1
    else
      render_children children (pref ++ (if is_last then sc.space else sc.vertical))
        sc show_size show_count max_width lines1
  | .file _ _ _ _ _ => lines1

/-- The `for i, child in enumerate(children)` loop of `_render_node_text`;
a child is last exactly when no sibling follows it. -/
def render_children (children : List Node) (pref : String) (sc : StyleChars)
    (show_size show_count : Bool) (max_width : Nat) (lines : List String) :
    List String :=
  match children with
  | [] => lines
  | c :: rest =>
    render_children rest pref sc show_size show_count max_width
      (render_node_text c pref rest.isEmpty sc show_size show_count max_width lines)

end

/-- Python `str(self.root_path)`; an unset `root_path` prints as `"None"`. -/
def rootPathStr (v : Visualizer) : String :=
  match v.root_path with
  | some p => p
  | none => "None"

/-- The header line built by `render_text_tree`
(`self.tree_data['name'] or str(self.root_path)`, then the optional
count/size summary). -/
def text_header (v : Visualizer) (t : Node) (show_size show_count : Bool) :
    String :=
  let root_name := if t.name = "" then rootPathStr v else t.name
  let header := "📁 " ++ root_name
  if show_count then
    header ++ " (" ++ toString v.folder_count ++ " folders, "
      ++ toString v.file_count ++ " files"
      ++ (if show_size then ", " ++ format_size v.total_size else "") ++ ")"
  else if show_size then header ++ " (" ++ format_size v.total_size ++ ")"
  else header

/-- The full `lines` list of `render_text_tree` on a scanned tree:
header, blank line, then the rendered nodes. -/
def text_tree_lines (v : Visualizer) (t : Node) (style : String)
    (show_size show_count : Bool) (max_width : Nat) : List String :=
  render_node_text t "" true (styles style) show_size show_count max_width
    [text_header v t show_size show_count, ""]

/-- The method `DirectoryTreeVisualizer.render_text_tree`. -/
def render_text_tree (v : Visualizer) (style : String)
    (show_size show_count : Bool) (max_width : Nat) : String :=
  match v.tree_data with
  | none => "No tree data available. Please scan a directory first."
  | some t => String.intercalate "\n" (text_tree_lines v t style show_size show_count max_width)

/-- The no-data guard of `DirectoryTreeVisualizer.export_html`
(`raise ValueError("No tree data available")`); the HTML document
generation and the file write are I/O and are not part of the guard. -/
def export_html (v : Visualizer) : Except String Unit :=
  match v.tree_data with
  | none => Except.error "No tree data available"
  | some _ => Except.ok ()

/-- The no-data guard of `DirectoryTreeVisualizer.export_json`, identical
to the HTML one. -/
def export_json (v : Visualizer) : Except String Unit :=
  match v.tree_data with
  | none => Except.error "No tree data available"
  | some _ => Except.ok ()

/-! ### Invariant predicates on scanned trees -/

/-- Contribution of a child node to its parent's `file_count`
(`child_node['file_count']` for directories, `1` for files). -/
def childFC : Node → Nat
  | .dir _ _ _ _ fc _ => fc
  | .file _ _ _ _ _ => 1

/-- Contribution of a child node to its parent's `folder_count`
(`child_node['folder_count'] + 1` for directories, `0` for files). -/
def childDC : Node → Nat
  | .dir _ _ _ _ _ dc => dc + 1
  | .file _ _ _ _ _ => 0

mutual

/-- The full invariant of a directory node produced by `_scan_recursive`
at depth `d`: its aggregates are the sums of its children's
contributions, it has no children beyond the depth limit, and every
child satisfies `childOk` one level deeper. -/
def dirOk (cfg : ScanConfig) (d : Nat) : Node → Bool
  | .file _ _ _ _ _ => false
  | .dir _ _ sz cs fc dc =>
    (sz == (cs.map Node.size).sum) && (fc == (cs.map childFC).sum) &&
    (dc == (cs.map childDC).sum) &&
    (!depthLimited cfg.max_depth d || cs.isEmpty) &&
    childrenOk cfg (d + 1) cs
termination_by n => (sizeOf n, 0)

/-- The invariant of a child appended by the scan loop: it passed the
hidden filter; a file moreover passed the inclusion, extension and size
filters; a directory satisfies `dirOk` at its own depth. -/
def childOk (cfg : ScanConfig) (d : Nat) : Node → Bool
  | .file nm _ sz ext _ =>
    !hiddenSkip cfg.show_hidden nm && cfg.include_files &&
    !extSkip cfg.extensions ext && !sizeSkip cfg.size_filter sz
  | .dir nm p sz cs fc dc =>
    !hiddenSkip cfg.show_hidden nm && dirOk cfg d (.dir nm p sz cs fc dc)
termination_by n => (sizeOf n, 1)

def childrenOk (cfg : ScanConfig) (d : Nat) : List Node → Bool
  | [] => true
  | c :: cs => childOk cfg d c && childrenOk cfg d cs
termination_by l => (sizeOf l, 0)

end

/-- Pointwise addition of global counters. -/
def addG (g h : Globals) : Globals :=
  ⟨g.file_count + h.file_count, g.folder_count + h.folder_count,
   g.total_size + h.total_size⟩

/-- Structural strong induction for the nested inductive `Node`. -/
theorem Node.strongInd (P : Node → Prop)
    (hfile : ∀ nm p sz ext mt, P (.file nm p sz ext mt))
    (hdir : ∀ nm p sz cs fc dc, (∀ c ∈ cs, P c) → P (.dir nm p sz cs fc dc)) :
    ∀ n, P n
  | .file nm p sz ext mt => hfile nm p sz ext mt
  | .dir nm p sz cs fc dc =>
    hdir nm p sz cs fc dc (fun c hc =>
      have : sizeOf c < sizeOf (Node.dir nm p sz cs fc dc) := by
        have h1 := List.sizeOf_lt_of_mem hc
        simp only [Node.dir.sizeOf_spec]
        omega
      Node.strongInd P hfile hdir c)
termination_by n => sizeOf n

theorem mem_insertEntry {a e : FSEntry} {l : List FSEntry} :
    a ∈ insertEntry e l ↔ a = e ∨ a ∈ l := by
  induction l with
  | nil => simp [insertEntry]
  | cons x xs ih =>
    simp only [insertEntry]
    split
    · simp
    · simp [ih]
      tauto

theorem mem_sortEntries {a : FSEntry} {l : List FSEntry} :
    a ∈ sortEntries l ↔ a ∈ l := by
  induction l with
  | nil => simp [sortEntries]
  | cons x xs ih => simp [sortEntries, mem_insertEntry, ih]

theorem sizeOf_entries_lt {cn : String} {ces : List FSEntry} {cr : Bool}
    {l : List FSEntry} (h : FSEntry.dir cn ces cr ∈ l) :
    sizeOf ces < sizeOf l := by
  have h1 := List.sizeOf_lt_of_mem h
  simp only [FSEntry.dir.sizeOf_spec] at h1
  omega

/-! ### The master invariant of the scan loop -/

theorem scanItems_master (dname dpath : String) (depth : Nat) (cfg : ScanConfig)
    (items : List FSEntry)
    (IH : ∀ cn ces cr, FSEntry.dir cn ces cr ∈ items → ∀ p g, ∃ sz cs fc dc,
      scan_recursive cn p ces cr (depth + 1) cfg g =
        (Node.dir cn p sz cs fc dc, addG g ⟨fc, dc, sz⟩) ∧
      dirOk cfg (depth + 1) (Node.dir cn p sz cs fc dc) = true) :
    ∀ size children fc dc g, ∃ S CH F D,
      scanItems dname dpath items depth cfg size children fc dc g =
        (Node.dir dname dpath (size + S) (children ++ CH) (fc + F) (dc + D),
          addG g ⟨F, D, S⟩) ∧
      S = (CH.map Node.size).sum ∧ F = (CH.map childFC).sum ∧
      D = (CH.map childDC).sum ∧ childrenOk cfg (depth + 1) CH = true := by
  induction items with
  | nil =>
    intro size children fc dc g
    refine ⟨0, [], 0, 0, ?_, by simp, by simp, by simp, by simp [childrenOk]⟩
    simp [scanItems, addG]
  | cons item rest ihr =>
    have ihr' := ihr (fun cn ces cr h => IH cn ces cr (List.mem_cons_of_mem _ h))
    intro size children fc dc g
    by_cases hh : hiddenSkip cfg.show_hidden item.name = true
    · obtain ⟨S, CH, F, D, heq, h1, h2, h3, h4⟩ := ihr' size children fc dc g
      refine ⟨S, CH, F, D, ?_, h1, h2, h3, h4⟩
      rw [scanItems.eq_def]
      simp only [hh, if_true]
      exact heq
    · cases item with
      | dir cn ces cr =>
        have hhf : hiddenSkip cfg.show_hidden cn = false := by
          simpa [FSEntry.name] using hh
        obtain ⟨csz, ccs, cfc, cdc, hceq, hcok⟩ :=
          IH cn ces cr (List.mem_cons_self _ _) (childPath dpath cn) g
        obtain ⟨S, CH, F, D, heq, h1, h2, h3, h4⟩ :=
          ihr' (size + csz) (children ++ [Node.dir cn (childPath dpath cn) csz ccs cfc cdc])
            (fc + cfc) (dc + cdc + 1)
            ⟨(addG g ⟨cfc, cdc, csz⟩).file_count,
             (addG g ⟨cfc, cdc, csz⟩).folder_count + 1,
             (addG g ⟨cfc, cdc, csz⟩).total_size⟩
        refine ⟨csz + S, Node.dir cn (childPath dpath cn) csz ccs cfc cdc :: CH,
          cfc + F, (cdc + 1) + D, ?_, ?_, ?_, ?_, ?_⟩
        · rw [scanItems.eq_def]
          simp only [FSEntry.name, hhf, Bool.false_eq_true, if_false]
          rw [hceq]
          simp only [Node.size, Node.file_count, Node.folder_count]
          rw [heq]
          simp only [addG, Prod.mk.injEq, Node.dir.injEq, Globals.mk.injEq,
            List.append_assoc, List.singleton_append, true_and, and_true]
          all_goals omega
        · simp [Node.size, h1]
        · simp [childFC, h2]
        · simp [childDC, h3]
        · simp [childrenOk, childOk, hhf, hcok, h4]
      | file fname fsize fmtime fok =>
        have hhf : hiddenSkip cfg.show_hidden fname = false := by
          simpa [FSEntry.name] using hh
        by_cases hincl : cfg.include_files = true
        case neg =>
          obtain ⟨S, CH, F, D, heq, h1, h2, h3, h4⟩ := ihr' size children fc dc g
          refine ⟨S, CH, F, D, ?_, h1, h2, h3, h4⟩
          rw [scanItems.eq_def]
          simp only [FSEntry.name, hhf, Bool.false_eq_true, if_false]
          simp only [hincl, Bool.false_eq_true, if_false]
          exact heq
        case pos =>
          by_cases hok : fok = true
          case neg =>
            obtain ⟨S, CH, F, D, heq, h1, h2, h3, h4⟩ := ihr' size children fc dc g
            refine ⟨S, CH, F, D, ?_, h1, h2, h3, h4⟩
            rw [scanItems.eq_def]
            simp only [FSEntry.name, hhf, Bool.false_eq_true, if_false]
            simp only [hincl, if_true]
            rw [if_pos (by simp [hok])]
            exact heq
          case pos =>
            by_cases hext : extSkip cfg.extensions (pathSuffix fname) = true
            case pos =>
              obtain ⟨S, CH, F, D, heq, h1, h2, h3, h4⟩ := ihr' size children fc dc g
              refine ⟨S, CH, F, D, ?_, h1, h2, h3, h4⟩
              rw [scanItems.eq_def]
              simp only [FSEntry.name, hhf, Bool.false_eq_true, if_false]
              simp only [hincl, hok, if_true, Bool.not_true, Bool.false_eq_true, if_false]
              rw [if_pos hext]
              exact heq
            case neg =>
              by_cases hsz : sizeSkip cfg.size_filter fsize = true
              case pos =>
                obtain ⟨S, CH, F, D, heq, h1, h2, h3, h4⟩ := ihr' size children fc dc g
                refine ⟨S, CH, F, D, ?_, h1, h2, h3, h4⟩
                rw [scanItems.eq_def]
                simp only [FSEntry.name, hhf, Bool.false_eq_true, if_false]
                simp only [hincl, hok, if_true, Bool.not_true, Bool.false_eq_true, if_false]
                rw [if_neg hext, if_pos hsz]
                exact heq
              case neg =>
                obtain ⟨S, CH, F, D, heq, h1, h2, h3, h4⟩ :=
                  ihr' (size + fsize)
                    (children ++ [Node.file fname (childPath dpath fname) fsize
                      (pathSuffix fname) fmtime])
                    (fc + 1) dc
                    ⟨g.file_count + 1, g.folder_count, g.total_size + fsize⟩
                refine ⟨fsize + S,
                  Node.file fname (childPath dpath fname) fsize (pathSuffix fname) fmtime :: CH,
                  1 + F, D, ?_, ?_, ?_, ?_, ?_⟩
                · rw [scanItems.eq_def]
                  simp only [FSEntry.name, hhf, Bool.false_eq_true, if_false]
                  simp only [hincl, hok, if_true, Bool.not_true, Bool.false_eq_true, if_false]
                  rw [if_neg hext, if_neg hsz]
                  rw [heq]
                  simp only [if_false, addG, Prod.mk.injEq, Node.dir.injEq, Globals.mk.injEq,
                    List.append_assoc, List.singleton_append, true_and, and_true]
                  all_goals omega
                · simp [Node.size, h1]
                · simp [childFC, h2]
                · simp [childDC, h3]
                · simp [childrenOk, childOk, hhf, hincl, hext, hsz, h4]

theorem scan_recursive_master (cfg : ScanConfig) (es : List FSEntry) (n p : String)
    (r : Bool) (d : Nat) (g : Globals) :
    ∃ sz cs fc dc,
      scan_recursive n p es r d cfg g =
        (Node.dir n p sz cs fc dc, addG g ⟨fc, dc, sz⟩) ∧
      dirOk cfg d (Node.dir n p sz cs fc dc) = true := by
  by_cases hd : depthLimited cfg.max_depth d = true
  · refine ⟨0, [], 0, 0, ?_, ?_⟩
    · rw [scan_recursive.eq_def]
      simp [hd, addG]
    · simp [dirOk, childrenOk, hd]
  · by_cases hr : r = true
    · have IH : ∀ cn ces cr, FSEntry.dir cn ces cr ∈ sortEntries es → ∀ p' g',
          ∃ sz cs fc dc,
            scan_recursive cn p' ces cr (d + 1) cfg g' =
              (Node.dir cn p' sz cs fc dc, addG g' ⟨fc, dc, sz⟩) ∧
            dirOk cfg (d + 1) (Node.dir cn p' sz cs fc dc) = true := by
        intro cn ces cr hmem p' g'
        have hlt : sizeOf ces < sizeOf es :=
          sizeOf_entries_lt (mem_sortEntries.mp hmem)
        exact scan_recursive_master cfg ces cn p' cr (d + 1) g'
      obtain ⟨S, CH, F, D, heq, h1, h2, h3, h4⟩ :=
        scanItems_master n p d cfg (sortEntries es) IH 0 [] 0 0 g
      refine ⟨S, CH, F, D, ?_, ?_⟩
      · rw [scan_recursive.eq_def]
        simp only [hd, Bool.false_eq_true, if_false, hr, if_true]
        simpa using heq
      · simp [dirOk, h1, h2, h3, h4, hd]
    · refine ⟨0, [], 0, 0, ?_, ?_⟩
      · rw [scan_recursive.eq_def]
        simp [hd, hr, addG]
      · simp [dirOk, childrenOk, hd]
termination_by sizeOf es
decreasing_by exact hlt

/-! ### Per-claim predicates on trees -/

mutual

/-- Every directory in the tree has `size` equal to the sum of its
children's `size`, transitively. -/
def Node.sizeOk : Node → Bool
  | .file _ _ _ _ _ => true
  | .dir _ _ sz cs _ _ => (sz == (cs.map Node.size).sum) && Node.sizeOkList cs
termination_by n => sizeOf n

def Node.sizeOkList : List Node → Bool
  | [] => true
  | c :: cs => c.sizeOk && Node.sizeOkList cs
termination_by l => sizeOf l

end

mutual

/-- No node in the tree (the root included) has a name starting with a dot. -/
def Node.noHidden : Node → Bool
  | .file nm _ _ _ _ => !startsDot nm
  | .dir nm _ _ cs _ _ => !startsDot nm && Node.noHiddenList cs
termination_by n => sizeOf n

def Node.noHiddenList : List Node → Bool
  | [] => true
  | c :: cs => c.noHidden && Node.noHiddenList cs
termination_by l => sizeOf l

end

mutual

/-- Depth clipping: every directory sitting at depth `≥ m` (its own
depth given as the second argument) is an empty leaf with zero size and
counts; in particular no node strictly deeper than the limit exists. -/
def Node.depthClipped (m : Nat) : Nat → Node → Bool
  | _, .file _ _ _ _ _ => true
  | d, .dir _ _ sz cs fc dc =>
    if m ≤ d then cs.isEmpty && sz == 0 && fc == 0 && dc == 0
    else Node.depthClippedList m (d + 1) cs
termination_by _ n => sizeOf n

def Node.depthClippedList (m : Nat) : Nat → List Node → Bool
  | _, [] => true
  | d, c :: cs => Node.depthClipped m d c && Node.depthClippedList m d cs
termination_by _ l => sizeOf l

end

mutual

/-- Every file node in the tree has a lower-cased extension belonging to
the lower-cased configured list. -/
def Node.filesExtOk (exts : List String) : Node → Bool
  | .file _ _ _ ext _ => (exts.map strLower).contains (strLower ext)
  | .dir _ _ _ cs _ _ => Node.filesExtOkList exts cs
termination_by n => sizeOf n

def Node.filesExtOkList (exts : List String) : List Node → Bool
  | [] => true
  | c :: cs => Node.filesExtOk exts c && Node.filesExtOkList exts cs
termination_by l => sizeOf l

end

/-- The directory skeleton of a tree: directory names and nesting, with
every file node erased. -/
inductive Skel where
  | mk (name : String) (children : List Skel)

mutual

def Node.dirSkel : Node → Option Skel
  | .file _ _ _ _ _ => none
  | .dir nm _ _ cs _ _ => some (Skel.mk nm (Node.dirSkels cs))
termination_by n => sizeOf n

def Node.dirSkels : List Node → List Skel
  | [] => []
  | c :: cs =>
    match Node.dirSkel c with
    | some s => s :: Node.dirSkels cs
    | none => Node.dirSkels cs
termination_by l => sizeOf l

end

/-! ### From the scan invariant to the per-claim predicates -/

theorem childrenOk_sizeOkList (cfg : ScanConfig) (d : Nat) (cs : List Node)
    (IH : ∀ c ∈ cs, ∀ d', dirOk cfg d' c = true → Node.sizeOk c = true)
    (h : childrenOk cfg d cs = true) : Node.sizeOkList cs = true := by
  induction cs with
  | nil => simp [Node.sizeOkList]
  | cons c cs ih =>
    simp only [childrenOk, Bool.and_eq_true] at h
    simp only [Node.sizeOkList, Bool.and_eq_true]
    refine ⟨?_, ih (fun c' h' => IH c' (List.mem_cons_of_mem _ h')) h.2⟩
    cases c with
    | file nm p sz ext mt => simp [Node.sizeOk]
    | dir cnm cp csz ccs cfc cdc =>
      have hc := h.1
      simp only [childOk, Bool.and_eq_true] at hc
      exact IH _ (List.mem_cons_self _ _) d hc.2

theorem dirOk_sizeOk (cfg : ScanConfig) :
    ∀ nd, ∀ d, dirOk cfg d nd = true → Node.sizeOk nd = true := by
  refine Node.strongInd (fun nd => ∀ d, dirOk cfg d nd = true → Node.sizeOk nd = true) ?_ ?_
  · intro nm p sz ext mt d h
    simp [dirOk] at h
  · intro nm p sz cs fc dc IH d h
    simp only [dirOk, Bool.and_eq_true] at h
    obtain ⟨⟨⟨⟨h1, _⟩, _⟩, _⟩, h5⟩ := h
    simp only [Node.sizeOk, Bool.and_eq_true]
    exact ⟨h1, childrenOk_sizeOkList cfg (d + 1) cs IH h5⟩

theorem childrenOk_noHiddenList (cfg : ScanConfig) (hsh : cfg.show_hidden = false)
    (d : Nat) (cs : List Node)
    (IH : ∀ c ∈ cs, ∀ d', dirOk cfg d' c = true → Node.noHiddenList c.children = true)
    (h : childrenOk cfg d cs = true) : Node.noHiddenList cs = true := by
  induction cs with
  | nil => simp [Node.noHiddenList]
  | cons c cs ih =>
    simp only [childrenOk, Bool.and_eq_true] at h
    simp only [Node.noHiddenList, Bool.and_eq_true]
    refine ⟨?_, ih (fun c' h' => IH c' (List.mem_cons_of_mem _ h')) h.2⟩
    have hc := h.1
    cases c with
    | file nm p sz ext mt =>
      simp only [childOk, Bool.and_eq_true] at hc
      have := hc.1
      simp only [hiddenSkip, hsh, Bool.not_false, Bool.true_and, Bool.not_eq_true'] at this
      simp [Node.noHidden, this]
    | dir cnm cp csz ccs cfc cdc =>
      simp only [childOk, Bool.and_eq_true] at hc
      have h1 := hc.1
      simp only [hiddenSkip, hsh, Bool.not_false, Bool.true_and, Bool.not_eq_true'] at h1
      have h2 := IH _ (List.mem_cons_self _ _) d hc.2
      simp only [Node.children] at h2
      simp [Node.noHidden, h1, h2]

theorem dirOk_noHidden (cfg : ScanConfig) (hsh : cfg.show_hidden = false) :
    ∀ nd, ∀ d, dirOk cfg d nd = true → Node.noHiddenList nd.children = true := by
  refine Node.strongInd
    (fun nd => ∀ d, dirOk cfg d nd = true → Node.noHiddenList nd.children = true) ?_ ?_
  · intro nm p sz ext mt d h
    simp [dirOk] at h
  · intro nm p sz cs fc dc IH d h
    simp only [dirOk, Bool.and_eq_true] at h
    simp only [Node.children]
    exact childrenOk_noHiddenList cfg hsh (d + 1) cs IH h.2

theorem childrenOk_depthClippedList (cfg : ScanConfig) (m : Nat)
    (hm : cfg.max_depth = some m) (d : Nat) (cs : List Node)
    (IH : ∀ c ∈ cs, ∀ d', dirOk cfg d' c = true → Node.depthClipped m d' c = true)
    (h : childrenOk cfg d cs = true) : Node.depthClippedList m d cs = true := by
  induction cs with
  | nil => simp [Node.depthClippedList]
  | cons c cs ih =>
    simp only [childrenOk, Bool.and_eq_true] at h
    simp only [Node.depthClippedList, Bool.and_eq_true]
    refine ⟨?_, ih (fun c' h' => IH c' (List.mem_cons_of_mem _ h')) h.2⟩
    cases c with
    | file nm p sz ext mt => simp [Node.depthClipped]
    | dir cnm cp csz ccs cfc cdc =>
      have hc := h.1
      simp only [childOk, Bool.and_eq_true] at hc
      exact IH _ (List.mem_cons_self _ _) d hc.2

theorem dirOk_depthClipped (cfg : ScanConfig) (m : Nat)
    (hm : cfg.max_depth = some m) :
    ∀ nd, ∀ d, dirOk cfg d nd = true → Node.depthClipped m d nd = true := by
  refine Node.strongInd
    (fun nd => ∀ d, dirOk cfg d nd = true → Node.depthClipped m d nd = true) ?_ ?_
  · intro nm p sz ext mt d h
    simp [dirOk] at h
  · intro nm p sz cs fc dc IH d h
    simp only [dirOk, Bool.and_eq_true] at h
    obtain ⟨⟨⟨⟨h1, h2⟩, h3⟩, h4⟩, h5⟩ := h
    by_cases hmd : m ≤ d
    · have hlim : depthLimited cfg.max_depth d = true := by
        simp [depthLimited, hm, hmd]
      rw [hlim] at h4
      simp only [Bool.not_true, Bool.false_or] at h4
      have hnil : cs = [] := by simpa [List.isEmpty_iff] using h4
      subst hnil
      simp only [List.map_nil, List.sum_nil] at h1 h2 h3
      simp [Node.depthClipped, hmd, h1, h2, h3]
    · simp only [Node.depthClipped, if_neg hmd]
      exact childrenOk_depthClippedList cfg m hm (d + 1) cs IH h5

theorem childrenOk_filesExtOkList (cfg : ScanConfig) (exts : List String)
    (hm : cfg.extensions = some exts) (hne : exts ≠ []) (d : Nat) (cs : List Node)
    (IH : ∀ c ∈ cs, ∀ d', dirOk cfg d' c = true → Node.filesExtOk exts c = true)
    (h : childrenOk cfg d cs = true) : Node.filesExtOkList exts cs = true := by
  induction cs with
  | nil => simp [Node.filesExtOkList]
  | cons c cs ih =>
    simp only [childrenOk, Bool.and_eq_true] at h
    simp only [Node.filesExtOkList, Bool.and_eq_true]
    refine ⟨?_, ih (fun c' h' => IH c' (List.mem_cons_of_mem _ h')) h.2⟩
    cases c with
    | file nm p sz ext mt =>
      have hc := h.1
      simp only [childOk, Bool.and_eq_true] at hc
      have hce := hc.1.2
      simp only [extSkip, hm, Bool.not_eq_true'] at hce
      simp only [Bool.and_eq_false_iff] at hce
      rcases hce with hce | hce
      · exact absurd (by simpa [List.isEmpty_iff] using hce) hne
      · simp only [Bool.not_eq_false'] at hce
        simp only [Node.filesExtOk]
        simpa using hce
    | dir cnm cp csz ccs cfc cdc =>
      have hc := h.1
      simp only [childOk, Bool.and_eq_true] at hc
      exact IH _ (List.mem_cons_self _ _) d hc.2

theorem dirOk_filesExtOk (cfg : ScanConfig) (exts : List String)
    (hm : cfg.extensions = some exts) (hne : exts ≠ []) :
    ∀ nd, ∀ d, dirOk cfg d nd = true → Node.filesExtOk exts nd = true := by
  refine Node.strongInd
    (fun nd => ∀ d, dirOk cfg d nd = true → Node.filesExtOk exts nd = true) ?_ ?_
  · intro nm p sz ext mt d h
    simp [dirOk] at h
  · intro nm p sz cs fc dc IH d h
    simp only [dirOk, Bool.and_eq_true] at h
    simp only [Node.filesExtOk]
    exact childrenOk_filesExtOkList cfg exts hm hne (d + 1) cs IH h.2

/-- Skipped hidden entries contribute nothing: the scan loop gives the
same node and the same global counters as the loop over the list with
the hidden entries removed. -/
theorem scanItems_skip_hidden (cfg : ScanConfig) (hsh : cfg.show_hidden = false)
    (dname dpath : String) (depth : Nat) :
    ∀ items size children fc dc g,
      scanItems dname dpath items depth cfg size children fc dc g =
        scanItems dname dpath (items.filter (fun e => !startsDot e.name)) depth
          cfg size children fc dc g := by
  intro items
  induction items with
  | nil => intro size children fc dc g; rfl
  | cons item rest ih =>
    intro size children fc dc g
    by_cases hhid : startsDot item.name = true
    · have hsk : hiddenSkip cfg.show_hidden item.name = true := by
        simp [hiddenSkip, hsh, hhid]
      have hf : (item :: rest).filter (fun e => !startsDot e.name) =
          rest.filter (fun e => !startsDot e.name) := by
        simp [List.filter_cons, hhid]
      rw [hf]
      conv_lhs => rw [scanItems.eq_def]
      simp only [hsk, if_true, ih]
    · have hsk : hiddenSkip cfg.show_hidden item.name = false := by
        simp [hiddenSkip, hsh, hhid]
      have hf : (item :: rest).filter (fun e => !startsDot e.name) =
          item :: rest.filter (fun e => !startsDot e.name) := by
        simp [List.filter_cons, hhid]
      rw [hf]
      conv_lhs => rw [scanItems.eq_def]
      conv_rhs => rw [scanItems.eq_def]
      simp only [hsk, Bool.false_eq_true, if_false, ih]

/-- Unfolding of `scan_directory` on an existing directory target. -/
theorem scan_directory_dir (v : Visualizer) (path resolved : String)
    (dn : String) (des : List FSEntry) (dr : Bool) (cfg : ScanConfig) :
    scan_directory v path resolved (some (FSEntry.dir dn des dr)) cfg =
      (Except.ok (scan_recursive dn resolved des dr 0 cfg ⟨0, 0, 0⟩).1,
        { tree_data := some (scan_recursive dn resolved des dr 0 cfg ⟨0, 0, 0⟩).1,
          root_path := some resolved,
          file_count := (scan_recursive dn resolved des dr 0 cfg ⟨0, 0, 0⟩).2.file_count,
          folder_count := (scan_recursive dn resolved des dr 0 cfg ⟨0, 0, 0⟩).2.folder_count,
          total_size := (scan_recursive dn resolved des dr 0 cfg ⟨0, 0, 0⟩).2.total_size }) :=
  rfl

/-- Shape of every successful `scan_directory` outcome. -/
theorem scan_ok_shape {v v' : Visualizer} {path resolved dn : String}
    {des : List FSEntry} {dr : Bool} {cfg : ScanConfig} {node : Node}
    (h : scan_directory v path resolved (some (FSEntry.dir dn des dr)) cfg =
      (Except.ok node, v')) :
    ∃ sz cs fc dc,
      node = Node.dir dn resolved sz cs fc dc ∧
      dirOk cfg 0 node = true ∧
      v' = { tree_data := some node, root_path := some resolved,
             file_count := fc, folder_count := dc, total_size := sz } := by
  rw [scan_directory_dir] at h
  obtain ⟨szr, csr, fcr, dcr, heq, hok⟩ :=
    scan_recursive_master cfg des dn resolved dr 0 ⟨0, 0, 0⟩
  rw [heq] at h
  simp only [Prod.mk.injEq, Except.ok.injEq] at h
  obtain ⟨hn, hv⟩ := h
  subst hn
  subst hv
  exact ⟨szr, csr, fcr, dcr, rfl, hok, by simp [addG]⟩

/-! ### The claims -/

/-- C1: for every tree produced by a successful scan, the `size` of any
directory node equals the sum of the sizes of its children, transitively
down the tree; entries removed by the hidden/extension/size filters are
absent from `children` and so contribute zero to every ancestor size. -/
theorem C1_size_invariant (v v' : Visualizer) (path resolved dn : String)
    (des : List FSEntry) (dr : Bool) (cfg : ScanConfig) (node : Node)
    (h : scan_directory v path resolved (some (FSEntry.dir dn des dr)) cfg =
      (Except.ok node, v')) :
    Node.sizeOk node = true := by
  obtain ⟨sz, cs, fc, dc, hn, hok, hv⟩ := scan_ok_shape h
  exact dirOk_sizeOk cfg node 0 hok

/-- C2: after every successful scan, the visualizer's global counters
equal the root node's own aggregates. -/
theorem C2_totals_equal_root (v v' : Visualizer) (path resolved dn : String)
    (des : List FSEntry) (dr : Bool) (cfg : ScanConfig) (node : Node)
    (h : scan_directory v path resolved (some (FSEntry.dir dn des dr)) cfg =
      (Except.ok node, v')) :
    v'.file_count = node.file_count ∧ v'.folder_count = node.folder_count ∧
    v'.total_size = node.size := by
  obtain ⟨sz, cs, fc, dc, hn, hok, hv⟩ := scan_ok_shape h
  subst hn
  subst hv
  simp [Node.file_count, Node.folder_count, Node.size]

/-- C4: with `maxDepth = 0` the root node exists with empty children and
zero aggregates; with `maxDepth = k`, every directory node at depth `≥ k`
is an empty leaf with size 0 and counts 0 (its entries not enumerated),
so no node deeper than the limit has children. -/
theorem C4_depth_bound (v v' : Visualizer) (path resolved dn : String)
    (des : List FSEntry) (dr : Bool) (cfg : ScanConfig) (node : Node) (k : Nat)
    (hk : cfg.max_depth = some k)
    (h : scan_directory v path resolved (some (FSEntry.dir dn des dr)) cfg =
      (Except.ok node, v')) :
    Node.depthClipped k 0 node = true ∧
    (k = 0 → node.children = [] ∧ node.size = 0 ∧ node.file_count = 0 ∧
      node.folder_count = 0) := by
  obtain ⟨sz, cs, fc, dc, hn, hok, hv⟩ := scan_ok_shape h
  have hd := dirOk_depthClipped cfg k hk node 0 hok
  refine ⟨hd, ?_⟩
  intro hk0
  subst hk0
  subst hn
  simp only [Node.depthClipped, Nat.le_refl, if_true, Bool.and_eq_true, beq_iff_eq,
    List.isEmpty_iff] at hd
  simp [Node.children, Node.size, Node.file_count, Node.folder_count, hd.1.1.1,
    hd.1.1.2, hd.1.2, hd.2]

/-- C5: scanning a nonexistent root fails with the not-found error and
scanning a non-directory root fails with the not-a-directory error; in
both cases the error value is the call's outcome and no tree is
returned. -/
theorem C5_fatal_errors (v : Visualizer) (path resolved : String) (cfg : ScanConfig) :
    (scan_directory v path resolved none cfg).1 =
      Except.error (ScanError.notFound path) ∧
    ∀ fname fsize fmtime fok,
      (scan_directory v path resolved (some (FSEntry.file fname fsize fmtime fok)) cfg).1 =
        Except.error (ScanError.notADirectory path) :=
  ⟨rfl, fun _ _ _ _ => rfl⟩

/-- C3 (amended): with `showHidden = false` no node below the root has a
name starting with a dot (the root itself keeps whatever name the
scanned directory has), and skipped hidden entries contribute zero to
every aggregate: the scan loop returns exactly what it returns on the
list with hidden entries removed. -/
theorem C3_hidden_filter (v v' : Visualizer) (path resolved dn : String)
    (des : List FSEntry) (dr : Bool) (cfg : ScanConfig) (node : Node)
    (hsh : cfg.show_hidden = false)
    (h : scan_directory v path resolved (some (FSEntry.dir dn des dr)) cfg =
      (Except.ok node, v')) :
    Node.noHiddenList node.children = true ∧
    ∀ dname dpath items depth size children fc dc g,
      scanItems dname dpath items depth cfg size children fc dc g =
        scanItems dname dpath (items.filter (fun e => !startsDot e.name)) depth
          cfg size children fc dc g := by
  obtain ⟨sz, cs, fc, dc, hn, hok, hv⟩ := scan_ok_shape h
  exact ⟨dirOk_noHidden cfg hsh node 0 hok,
    fun dname dpath items depth size children fc dc g =>
      scanItems_skip_hidden cfg hsh dname dpath depth items size children fc dc g⟩

/-- C9: a scan that fails on a nonexistent or non-directory path still
resets the counters to zero and overwrites `root_path` with the newly
resolved path before raising, while `tree_data` keeps the previous
scan's tree — a later render combines the old tree with zeroed counters. -/
theorem C9_failed_scan_state (v : Visualizer) (path resolved : String)
    (cfg : ScanConfig) :
    (scan_directory v path resolved none cfg).2 =
      { v with root_path := some resolved, file_count := 0, folder_count := 0,
               total_size := 0 } ∧
    (∀ fname fsize fmtime fok,
      (scan_directory v path resolved (some (FSEntry.file fname fsize fmtime fok)) cfg).2 =
        { v with root_path := some resolved, file_count := 0, folder_count := 0,
                 total_size := 0 }) ∧
    (scan_directory v path resolved none cfg).2.tree_data = v.tree_data :=
  ⟨rfl, fun _ _ _ _ => rfl, rfl⟩

/-- C10: with no tree data (no successful scan yet) the text renderer
returns the fixed message string, while the HTML export and the JSON
export both raise the no-data error instead. -/
theorem C10_no_data (v : Visualizer) (hv : v.tree_data = none) :
    (∀ style ss scnt mw, render_text_tree v style ss scnt mw =
      "No tree data available. Please scan a directory first.") ∧
    export_html v = Except.error "No tree data available" ∧
    export_json v = Except.error "No tree data available" := by
  refine ⟨fun style ss scnt mw => ?_, ?_, ?_⟩ <;>
    simp [render_text_tree, export_html, export_json, hv]

/-- The unit index described by the spec: step up one unit whenever the
value would otherwise be at least 1024, capping at TB. -/
def specUnit (n : Nat) : Nat :=
  if n < 1024 then 0
  else if n < 1024 ^ 2 then 1
  else if n < 1024 ^ 3 then 2
  else if n < 1024 ^ 4 then 3
  else 4

theorem sizeUnit_eq_specUnit (n : Nat) : sizeUnit n = specUnit n := by
  unfold sizeUnit specUnit
  simp only [fsLoopF]
  norm_num
  split_ifs <;> omega

/-- C6: `format_size` uses binary units B/KB/MB/GB/TB with one decimal
place, stepping up a unit whenever the value would otherwise be at least
1024 and capping at TB; the listed boundary values hold exactly. -/
theorem C6_format_size :
    format_size 0 = "0 B" ∧ format_size 1023 = "1023.0 B" ∧
    format_size 1024 = "1.0 KB" ∧ format_size 1536 = "1.5 KB" ∧
    format_size 1048576 = "1.0 MB" ∧
    ∀ n : Nat, n ≠ 0 → ∃ a b : Nat, b < 10 ∧
      format_size n = toString a ++ "." ++ toString b ++ " " ++
        size_names.getD (specUnit n) "B" := by
  refine ⟨by decide, by decide, by decide, by decide, by decide, ?_⟩
  intro n hn
  refine ⟨round1f (n * 10) (1024 ^ specUnit n) / 10,
    round1f (n * 10) (1024 ^ specUnit n) % 10, Nat.mod_lt _ (by omega), ?_⟩
  rw [format_size, if_neg hn, sizeUnit_eq_specUnit]

theorem dirSkels_append (a b : List Node) :
    Node.dirSkels (a ++ b) = Node.dirSkels a ++ Node.dirSkels b := by
  induction a with
  | nil => simp [Node.dirSkels]
  | cons c cs ih =>
    simp only [List.cons_append, Node.dirSkels]
    cases hc : Node.dirSkel c <;> simp [hc, ih]

theorem scanItems_skel (md : Option Nat) (sh incf : Bool)
    (e₁ e₂ : Option (List String)) (sf : Option (Nat × Nat))
    (dname dpath : String) (depth : Nat) :
    ∀ items : List FSEntry,
    (∀ cn ces cr, FSEntry.dir cn ces cr ∈ items → ∀ p d' g₁ g₂,
      Node.dirSkel (scan_recursive cn p ces cr d' ⟨md, sh, incf, e₁, sf⟩ g₁).1 =
      Node.dirSkel (scan_recursive cn p ces cr d' ⟨md, sh, incf, e₂, sf⟩ g₂).1) →
    ∀ size₁ ch₁ fc₁ dc₁ g₁ size₂ ch₂ fc₂ dc₂ g₂,
      Node.dirSkels ch₁ = Node.dirSkels ch₂ →
      Node.dirSkel
        (scanItems dname dpath items depth ⟨md, sh, incf, e₁, sf⟩ size₁ ch₁ fc₁ dc₁ g₁).1 =
      Node.dirSkel
        (scanItems dname dpath items depth ⟨md, sh, incf, e₂, sf⟩ size₂ ch₂ fc₂ dc₂ g₂).1 := by
  intro items
  induction items with
  | nil =>
    intro IH size₁ ch₁ fc₁ dc₁ g₁ size₂ ch₂ fc₂ dc₂ g₂ hch
    conv_lhs => rw [scanItems.eq_def]
    conv_rhs => rw [scanItems.eq_def]
    simp [Node.dirSkel, hch]
  | cons item rest ih =>
    intro IH size₁ ch₁ fc₁ dc₁ g₁ size₂ ch₂ fc₂ dc₂ g₂ hch
    have ih' := ih (fun cn ces cr hm => IH cn ces cr (List.mem_cons_of_mem _ hm))
    conv_lhs => rw [scanItems.eq_def]
    conv_rhs => rw [scanItems.eq_def]
    by_cases hh : hiddenSkip sh item.name = true
    · simp only [hh, if_true]
      exact ih' size₁ ch₁ fc₁ dc₁ g₁ size₂ ch₂ fc₂ dc₂ g₂ hch
    · simp only [hh, Bool.false_eq_true, if_false]
      cases item with
      | dir cn ces cr =>
        obtain ⟨sz1, cs1, fc1, dc1, h1eq, _⟩ :=
          scan_recursive_master ⟨md, sh, incf, e₁, sf⟩ ces cn (childPath dpath cn)
            cr (depth + 1) g₁
        obtain ⟨sz2, cs2, fc2, dc2, h2eq, _⟩ :=
          scan_recursive_master ⟨md, sh, incf, e₂, sf⟩ ces cn (childPath dpath cn)
            cr (depth + 1) g₂
        have hsk := IH cn ces cr (List.mem_cons_self _ _) (childPath dpath cn)
          (depth + 1) g₁ g₂
        rw [h1eq, h2eq] at hsk
        simp only [Node.dirSkel, Option.some.injEq, Skel.mk.injEq, true_and] at hsk
        simp only [h1eq, h2eq]
        apply ih'
        rw [dirSkels_append, dirSkels_append, hch]
        simp [Node.dirSkels, Node.dirSkel, hsk]
      | file fname fsize fmtime fok =>
        by_cases hincl : incf = true
        case neg =>
          simp only [if_neg hincl]
          exact ih' _ _ _ _ _ _ _ _ _ _ hch
        case pos =>
          simp only [if_pos hincl]
          by_cases hok : fok = true
          case neg =>
            have hfok : (!fok) = true := by simp [hok]
            rw [if_pos hfok, if_pos hfok]
            exact ih' _ _ _ _ _ _ _ _ _ _ hch
          case pos =>
            have hfok : ¬((!fok) = true) := by simp [hok]
            rw [if_neg hfok, if_neg hfok]
            have hfileskel : ∀ ch : List Node,
                Node.dirSkels (ch ++ [Node.file fname (childPath dpath fname) fsize
                  (pathSuffix fname) fmtime]) = Node.dirSkels ch := by
              intro ch
              rw [dirSkels_append]
              simp [Node.dirSkels, Node.dirSkel]
            by_cases he1 : extSkip e₁ (pathSuffix fname) = true
            · rw [if_pos he1]
              by_cases he2 : extSkip e₂ (pathSuffix fname) = true
              · rw [if_pos he2]
                exact ih' _ _ _ _ _ _ _ _ _ _ hch
              · rw [if_neg he2]
                by_cases hsz : sizeSkip sf fsize = true
                · rw [if_pos hsz]
                  exact ih' _ _ _ _ _ _ _ _ _ _ hch
                · rw [if_neg hsz]
                  refine ih' _ _ _ _ _ _ _ _ _ _ ?_
                  rw [hfileskel]
                  exact hch
            · rw [if_neg he1]
              by_cases hsz : sizeSkip sf fsize = true
              · rw [if_pos hsz]
                by_cases he2 : extSkip e₂ (pathSuffix fname) = true
                · rw [if_pos he2]
                  exact ih' _ _ _ _ _ _ _ _ _ _ hch
                · rw [if_neg he2, if_pos hsz]
                  exact ih' _ _ _ _ _ _ _ _ _ _ hch
              · rw [if_neg hsz]
                by_cases he2 : extSkip e₂ (pathSuffix fname) = true
                · rw [if_pos he2]
                  refine ih' _ _ _ _ _ _ _ _ _ _ ?_
                  rw [hfileskel]
                  exact hch
                · rw [if_neg he2, if_neg hsz]
                  refine ih' _ _ _ _ _ _ _ _ _ _ ?_
                  rw [hfileskel, hfileskel]
                  exact hch

/-- The directory skeleton of a scan does not depend on the extension
filter: directories are never removed by it. -/
theorem scan_recursive_skel (es : List FSEntry) : ∀ (n p : String) (r : Bool)
    (d : Nat) (md : Option Nat) (sh incf : Bool) (e₁ e₂ : Option (List String))
    (sf : Option (Nat × Nat)) (g₁ g₂ : Globals),
    Node.dirSkel (scan_recursive n p es r d ⟨md, sh, incf, e₁, sf⟩ g₁).1 =
    Node.dirSkel (scan_recursive n p es r d ⟨md, sh, incf, e₂, sf⟩ g₂).1 := by
  intro n p r d md sh incf e₁ e₂ sf g₁ g₂
  by_cases hd : depthLimited md d = true
  · conv_lhs => rw [scan_recursive.eq_def]
    conv_rhs => rw [scan_recursive.eq_def]
    simp only [hd, if_true]
  · by_cases hr : r = true
    · conv_lhs => rw [scan_recursive.eq_def]
      conv_rhs => rw [scan_recursive.eq_def]
      simp only [hd, Bool.false_eq_true, if_false, hr, if_true]
      refine scanItems_skel md sh incf e₁ e₂ sf n p d (sortEntries es) ?_
        0 [] 0 0 g₁ 0 [] 0 0 g₂ rfl
      intro cn ces cr hm p' d' ga gb
      have hlt : sizeOf ces < sizeOf es := sizeOf_entries_lt (mem_sortEntries.mp hm)
      exact scan_recursive_skel ces cn p' cr d' md sh incf e₁ e₂ sf ga gb
    · conv_lhs => rw [scan_recursive.eq_def]
      conv_rhs => rw [scan_recursive.eq_def]
      simp only [hd, Bool.false_eq_true, if_false, hr]
termination_by sizeOf es
decreasing_by exact hlt

/-- C7 (amended): with a non-empty extensions filter configured, every
file node in the scanned tree has a lower-cased extension belonging to
the lower-cased filter list; and no directory node is ever removed by
the extension filter — the directory skeleton of any scan is invariant
under changing the extensions setting. -/
theorem C7_extension_filter (v v' : Visualizer) (path resolved dn : String)
    (des : List FSEntry) (dr : Bool) (cfg : ScanConfig) (node : Node)
    (exts : List String) (he : cfg.extensions = some exts) (hne : exts ≠ [])
    (h : scan_directory v path resolved (some (FSEntry.dir dn des dr)) cfg =
      (Except.ok node, v')) :
    Node.filesExtOk exts node = true ∧
    ∀ (es : List FSEntry) (n p : String) (r : Bool) (d : Nat) (md : Option Nat)
      (sh incf : Bool) (e₁ e₂ : Option (List String)) (sf : Option (Nat × Nat))
      (g₁ g₂ : Globals),
      Node.dirSkel (scan_recursive n p es r d ⟨md, sh, incf, e₁, sf⟩ g₁).1 =
      Node.dirSkel (scan_recursive n p es r d ⟨md, sh, incf, e₂, sf⟩ g₂).1 := by
  obtain ⟨sz, cs, fc, dc, hn, hok, hv⟩ := scan_ok_shape h
  exact ⟨dirOk_filesExtOk cfg exts he hne node 0 hok,
    fun es n p r d md sh incf e₁ e₂ sf g₁ g₂ =>
      scan_recursive_skel es n p r d md sh incf e₁ e₂ sf g₁ g₂⟩

/-- Truncation of an overlong line: with `maxLineWidth ≥ 3`, a composed
line longer than `maxLineWidth` is emitted with length exactly
`maxLineWidth` and ends in the three-character ellipsis. -/
theorem truncLine_spec (s : String) (mw : Nat) (h3 : 3 ≤ mw)
    (hl : mw < s.length) :
    (truncLine s mw).length = mw ∧ ∃ t, truncLine s mw = t ++ "..." := by
  rw [truncLine, if_pos hl]
  rw [pySliceTo, if_pos (by omega)]
  have ht : ((mw : Int) - 3).toNat = mw - 3 := by omega
  rw [ht]
  constructor
  · have hs : s.toList.length = s.length := rfl
    have h1 : (String.mk (s.toList.take (mw - 3))).length =
        (s.toList.take (mw - 3)).length := rfl
    have h2 : ("..." : String).length = 3 := rfl
    rw [String.length_append, h1, h2, List.length_take]
    omega
  · exact ⟨_, rfl⟩

theorem render_children_lines (mw : Nat) (sc : StyleChars) (ss scnt : Bool) :
    ∀ cs : List Node,
    (∀ c ∈ cs, ∀ pref il lines, ∃ extra,
      render_node_text c pref il sc ss scnt mw lines = lines ++ extra ∧
      ∀ l ∈ extra, ∃ comp, l = truncLine comp mw) →
    ∀ pref lines, ∃ extra,
      render_children cs pref sc ss scnt mw lines = lines ++ extra ∧
      ∀ l ∈ extra, ∃ comp, l = truncLine comp mw := by
  intro cs
  induction cs with
  | nil =>
    intro IH pref lines
    refine ⟨[], ?_, by simp⟩
    rw [render_children.eq_def]
    simp
  | cons c rest ih =>
    intro IH pref lines
    obtain ⟨e1, he1, ha1⟩ :=
      IH c (List.mem_cons_self _ _) pref rest.isEmpty lines
    obtain ⟨e2, he2, ha2⟩ :=
      ih (fun c' hm => IH c' (List.mem_cons_of_mem _ hm)) pref
        (render_node_text c pref rest.isEmpty sc ss scnt mw lines)
    refine ⟨e1 ++ e2, ?_, ?_⟩
    · rw [render_children.eq_def]
      simp only
      rw [he2, he1, List.append_assoc]
    · intro l hl
      rcases List.mem_append.mp hl with hl | hl
      · exact ha1 l hl
      · exact ha2 l hl

theorem render_node_text_lines (mw : Nat) (sc : StyleChars) (ss scnt : Bool) :
    ∀ nd : Node, ∀ pref il lines, ∃ extra,
      render_node_text nd pref il sc ss scnt mw lines = lines ++ extra ∧
      ∀ l ∈ extra, ∃ comp, l = truncLine comp mw := by
  refine Node.strongInd (fun nd => ∀ pref il lines, ∃ extra,
    render_node_text nd pref il sc ss scnt mw lines = lines ++ extra ∧
    ∀ l ∈ extra, ∃ comp, l = truncLine comp mw) ?_ ?_
  · intro nm p sz ext mt pref il lines
    refine ⟨[truncLine (composedLine pref il sc
      (node_label (Node.file nm p sz ext mt) ss scnt).1
      (node_label (Node.file nm p sz ext mt) ss scnt).2) mw], ?_, ?_⟩
    · rw [render_node_text.eq_def]
    · intro l hl
      simp only [List.mem_singleton] at hl
      exact ⟨_, hl⟩
  · intro nm p sz cs fc dc IH pref il lines
    have hline := truncLine (composedLine pref il sc
      (node_label (Node.dir nm p sz cs fc dc) ss scnt).1
      (node_label (Node.dir nm p sz cs fc dc) ss scnt).2) mw
    by_cases hemp : cs.isEmpty = true
    · refine ⟨[truncLine (composedLine pref il sc
        (node_label (Node.dir nm p sz cs fc dc) ss scnt).1
        (node_label (Node.dir nm p sz cs fc dc) ss scnt).2) mw], ?_, ?_⟩
      · rw [render_node_text.eq_def]
        simp only [hemp, if_true]
      · intro l hl
        simp only [List.mem_singleton] at hl
        exact ⟨_, hl⟩
    · obtain ⟨e2, he2, ha2⟩ :=
        render_children_lines mw sc ss scnt cs
          (fun c hm => IH c hm)
          (pref ++ (if il then sc.space else sc.vertical))
          (lines ++ [truncLine (composedLine pref il sc
            (node_label (Node.dir nm p sz cs fc dc) ss scnt).1
            (node_label (Node.dir nm p sz cs fc dc) ss scnt).2) mw])
      refine ⟨truncLine (composedLine pref il sc
        (node_label (Node.dir nm p sz cs fc dc) ss scnt).1
        (node_label (Node.dir nm p sz cs fc dc) ss scnt).2) mw :: e2, ?_, ?_⟩
      · rw [render_node_text.eq_def]
        simp only [hemp, Bool.false_eq_true, if_false]
        rw [he2]
        simp
      · intro l hl
        rcases List.mem_cons.mp hl with hl | hl
        · exact ⟨_, hl⟩
        · exact ha2 l hl

/-- C8 (amended): in the text renderer's output with `maxLineWidth ≥ 3`,
every node line is the truncation of its composed line, and whenever the
composed line exceeds `maxLineWidth` the emitted line has length exactly
`maxLineWidth` and ends in the three-character ellipsis; the header line
is exempt from truncation. -/
theorem C8_truncation (v : Visualizer) (t : Node) (style : String)
    (ss scnt : Bool) (mw : Nat) (hv : v.tree_data = some t) (h3 : 3 ≤ mw) :
    ∃ nodeLines,
      render_text_tree v style ss scnt mw =
        String.intercalate "\n" (text_header v t ss scnt :: "" :: nodeLines) ∧
      ∀ l ∈ nodeLines, ∃ c, l = truncLine c mw ∧
        (mw < c.length → l.length = mw ∧ ∃ t2, l = t2 ++ "...") := by
  obtain ⟨extra, hex, hall⟩ := render_node_text_lines mw (styles style) ss scnt t
    "" true [text_header v t ss scnt, ""]
  refine ⟨extra, ?_, ?_⟩
  · simp only [render_text_tree, hv, text_tree_lines, hex]
    rfl
  · intro l hl
    obtain ⟨c, hc⟩ := hall l hl
    refine ⟨c, hc, fun hlen => ?_⟩
    obtain ⟨hlen2, t2, ht2⟩ := truncLine_spec c mw h3 hlen
    subst hc
    exact ⟨hlen2, t2, ht2⟩

/-! ### Concrete fixtures (the spec's end-to-end example:
`root/{a.txt (10 bytes), sub/{b.py (20 bytes)}}`) -/

def egEntries : List FSEntry :=
  [FSEntry.file "a.txt" 10 "t1" true,
   FSEntry.dir "sub" [FSEntry.file "b.py" 20 "t2" true] true]

def cfg0 : ScanConfig := ⟨none, false, true, none, none⟩

def egNode : Node :=
  Node.dir "root" "/root" 30
    [Node.dir "sub" "/root/sub" 20
      [Node.file "b.py" "/root/sub/b.py" 20 ".py" "t2"] 1 0,
     Node.file "a.txt" "/root/a.txt" 10 ".txt" "t1"] 2 1

def egViz : Visualizer := ⟨some egNode, some "/root", 2, 1, 30⟩

set_option maxHeartbeats 1000000 in
theorem egScanRec : scan_recursive "root" "/root" egEntries true 0 cfg0 ⟨0, 0, 0⟩ =
    (egNode, ⟨2, 1, 30⟩) := by
  simp +decide [egEntries, cfg0, egNode, scan_recursive, scanItems, sortEntries,
    insertEntry, entry_le, FSEntry.isFile, FSEntry.name, depthLimited, hiddenSkip,
    startsDot, extSkip, sizeSkip, childPath, pathSuffix, lastDot, strLower, lexLE,
    Node.size, Node.file_count, Node.folder_count]

theorem egScanDir :
    scan_directory initVisualizer "root" "/root"
      (some (FSEntry.dir "root" egEntries true)) cfg0 = (Except.ok egNode, egViz) := by
  rw [scan_directory_dir, egScanRec]
  rfl

/-- Witness for C1 at the fixture scan. -/
theorem C1_size_invariant_witness : Node.sizeOk egNode = true :=
  C1_size_invariant initVisualizer egViz "root" "/root" "root" egEntries true
    cfg0 egNode egScanDir

/-- Witness for C2 at the fixture scan. -/
theorem C2_totals_equal_root_witness :
    egViz.file_count = egNode.file_count ∧
    egViz.folder_count = egNode.folder_count ∧
    egViz.total_size = egNode.size :=
  C2_totals_equal_root initVisualizer egViz "root" "/root" "root" egEntries true
    cfg0 egNode egScanDir

def c3Entries : List FSEntry :=
  [FSEntry.file ".secret" 7 "t" true, FSEntry.file "a.txt" 10 "t1" true]

def c3Node : Node :=
  Node.dir "root" "/root" 10 [Node.file "a.txt" "/root/a.txt" 10 ".txt" "t1"] 1 0

set_option maxHeartbeats 1000000 in
theorem c3ScanRec : scan_recursive "root" "/root" c3Entries true 0 cfg0 ⟨0, 0, 0⟩ =
    (c3Node, ⟨1, 0, 10⟩) := by
  simp +decide [c3Entries, cfg0, c3Node, scan_recursive, scanItems, sortEntries,
    insertEntry, entry_le, FSEntry.isFile, FSEntry.name, depthLimited, hiddenSkip,
    startsDot, extSkip, sizeSkip, childPath, pathSuffix, lastDot, strLower, lexLE,
    Node.size, Node.file_count, Node.folder_count]

theorem c3ScanDir :
    scan_directory initVisualizer "root" "/root"
      (some (FSEntry.dir "root" c3Entries true)) cfg0 =
      (Except.ok c3Node, ⟨some c3Node, some "/root", 1, 0, 10⟩) := by
  rw [scan_directory_dir, c3ScanRec]

/-- Witness for the amended C3: a scan over a directory holding a hidden
file keeps no hidden node below the root, and the scan loop agrees with
the loop over the list with the hidden entry removed. -/
theorem C3_hidden_filter_witness :
    Node.noHiddenList c3Node.children = true ∧
    scanItems "root" "/root" c3Entries 0 cfg0 0 [] 0 0 ⟨0, 0, 0⟩ =
      scanItems "root" "/root" (c3Entries.filter (fun e => !startsDot e.name)) 0
        cfg0 0 [] 0 0 ⟨0, 0, 0⟩ :=
  ⟨(C3_hidden_filter initVisualizer ⟨some c3Node, some "/root", 1, 0, 10⟩ "root"
      "/root" "root" c3Entries true cfg0 c3Node rfl c3ScanDir).1,
   (C3_hidden_filter initVisualizer ⟨some c3Node, some "/root", 1, 0, 10⟩ "root"
      "/root" "root" c3Entries true cfg0 c3Node rfl c3ScanDir).2
     "root" "/root" c3Entries 0 0 [] 0 0 ⟨0, 0, 0⟩⟩

/-- Counterexample to C3 as stated: scanning a directory whose own name
starts with a dot, with `showHidden = false`, succeeds and yields a tree
whose root node has a hidden name — a node whose name starts with `.`
does appear in the tree. -/
theorem C3_counterexample :
    (scan_directory initVisualizer "/.h" "/.h" (some (FSEntry.dir ".h" [] true))
      cfg0).1 = Except.ok (Node.dir ".h" "/.h" 0 [] 0 0) ∧
    Node.noHidden (Node.dir ".h" "/.h" 0 [] 0 0) = false := by
  constructor
  · have hrec : scan_recursive ".h" "/.h" [] true 0 cfg0 ⟨0, 0, 0⟩ =
        (Node.dir ".h" "/.h" 0 [] 0 0, ⟨0, 0, 0⟩) := by
      simp +decide [cfg0, scan_recursive, scanItems, sortEntries, depthLimited]
    rw [scan_directory_dir, hrec]
  · simp +decide [Node.noHidden, Node.noHiddenList, startsDot]

def c4Cfg : ScanConfig := ⟨some 0, false, true, none, none⟩

def c4Node : Node := Node.dir "root" "/root" 0 [] 0 0

theorem c4ScanRec : scan_recursive "root" "/root" egEntries true 0 c4Cfg ⟨0, 0, 0⟩ =
    (c4Node, ⟨0, 0, 0⟩) := by
  simp +decide [egEntries, c4Cfg, c4Node, scan_recursive, depthLimited]

theorem c4ScanDir :
    scan_directory initVisualizer "root" "/root"
      (some (FSEntry.dir "root" egEntries true)) c4Cfg =
      (Except.ok c4Node, ⟨some c4Node, some "/root", 0, 0, 0⟩) := by
  rw [scan_directory_dir, c4ScanRec]

/-- Witness for C4: a `maxDepth = 0` scan of the fixture yields the root
as an empty leaf with zero aggregates. -/
theorem C4_depth_bound_witness :
    Node.depthClipped 0 0 c4Node = true ∧
    (0 = 0 → c4Node.children = [] ∧ c4Node.size = 0 ∧ c4Node.file_count = 0 ∧
      c4Node.folder_count = 0) :=
  C4_depth_bound initVisualizer ⟨some c4Node, some "/root", 0, 0, 0⟩ "root"
    "/root" "root" egEntries true c4Cfg c4Node 0 rfl c4ScanDir

/-- Witness for C6 at a nonzero input. -/
theorem C6_format_size_witness :
    (5 : Nat) ≠ 0 ∧ ∃ a b : Nat, b < 10 ∧
      format_size 5 = toString a ++ "." ++ toString b ++ " " ++
        size_names.getD (specUnit 5) "B" :=
  ⟨by decide, C6_format_size.2.2.2.2.2 5 (by decide)⟩

def c7Cfg : ScanConfig := ⟨none, false, true, some [".PY", ".txt"], none⟩

def c7Entries : List FSEntry :=
  [FSEntry.file "a.TXT" 10 "t" true, FSEntry.file "b.md" 5 "t" true]

def c7Node : Node :=
  Node.dir "r" "/r" 10 [Node.file "a.TXT" "/r/a.TXT" 10 ".TXT" "t"] 1 0

set_option maxHeartbeats 1000000 in
theorem c7ScanRec : scan_recursive "r" "/r" c7Entries true 0 c7Cfg ⟨0, 0, 0⟩ =
    (c7Node, ⟨1, 0, 10⟩) := by
  simp +decide [c7Entries, c7Cfg, c7Node, scan_recursive, scanItems, sortEntries,
    insertEntry, entry_le, FSEntry.isFile, FSEntry.name, depthLimited, hiddenSkip,
    startsDot, extSkip, sizeSkip, childPath, pathSuffix, lastDot, strLower, lexLE,
    Node.size, Node.file_count, Node.folder_count]

theorem c7ScanDir :
    scan_directory initVisualizer "r" "/r" (some (FSEntry.dir "r" c7Entries true))
      c7Cfg = (Except.ok c7Node, ⟨some c7Node, some "/r", 1, 0, 10⟩) := by
  rw [scan_directory_dir, c7ScanRec]

/-- Witness for the amended C7: a scan with a non-empty, mixed-case
extension filter keeps only matching files, and the directory skeleton
of a scan does not change when the extension filter changes. -/
theorem C7_extension_filter_witness :
    Node.filesExtOk [".PY", ".txt"] c7Node = true ∧
    Node.dirSkel (scan_recursive "r" "/r" c7Entries true 0
      ⟨none, false, true, some [], none⟩ ⟨0, 0, 0⟩).1 =
    Node.dirSkel (scan_recursive "r" "/r" c7Entries true 0
      ⟨none, false, true, none, none⟩ ⟨0, 0, 0⟩).1 :=
  ⟨(C7_extension_filter initVisualizer ⟨some c7Node, some "/r", 1, 0, 10⟩ "r" "/r"
      "r" c7Entries true c7Cfg c7Node [".PY", ".txt"] rfl (by decide) c7ScanDir).1,
   (C7_extension_filter initVisualizer ⟨some c7Node, some "/r", 1, 0, 10⟩ "r" "/r"
      "r" c7Entries true c7Cfg c7Node [".PY", ".txt"] rfl (by decide) c7ScanDir).2
     c7Entries "r" "/r" true 0 none false true (some []) none none ⟨0, 0, 0⟩ ⟨0, 0, 0⟩⟩

/-- Counterexample to C7 as stated: `extensions = []` is falsy in Python
and filters nothing, so with the empty extensions list configured a file
whose extension belongs to no configured extension still appears in the
tree. -/
theorem C7_counterexample :
    (scan_directory initVisualizer "r" "/r"
      (some (FSEntry.dir "r" [FSEntry.file "a.txt" 10 "t" true] true))
      ⟨none, false, true, some [], none⟩).1 =
      Except.ok (Node.dir "r" "/r" 10
        [Node.file "a.txt" "/r/a.txt" 10 ".txt" "t"] 1 0) ∧
    (([] : List String).map strLower).contains (strLower ".txt") = false := by
  constructor
  · have hrec : scan_recursive "r" "/r" [FSEntry.file "a.txt" 10 "t" true] true 0
        ⟨none, false, true, some [], none⟩ ⟨0, 0, 0⟩ =
        (Node.dir "r" "/r" 10 [Node.file "a.txt" "/r/a.txt" 10 ".txt" "t"] 1 0,
          ⟨1, 0, 10⟩) := by
      simp +decide [scan_recursive, scanItems, sortEntries, insertEntry, entry_le,
        FSEntry.isFile, FSEntry.name, depthLimited, hiddenSkip, startsDot, extSkip,
        sizeSkip, childPath, pathSuffix, lastDot, strLower, lexLE, Node.size,
        Node.file_count, Node.folder_count]
    rw [scan_directory_dir, hrec]
  · decide

/-- Witness for the amended C8 at the fixture state with width 10. -/
theorem C8_truncation_witness :
    ∃ nodeLines,
      render_text_tree egViz "unicode" true true 10 =
        String.intercalate "\n" (text_header egViz egNode true true :: "" :: nodeLines) ∧
      ∀ l ∈ nodeLines, ∃ c, l = truncLine c 10 ∧
        (10 < c.length → l.length = 10 ∧ ∃ t2, l = t2 ++ "...") :=
  C8_truncation egViz egNode "unicode" true true 10 rfl (by decide)

/-- Counterexample to C8 as stated: the header line is never truncated,
so at width 10 the fixture render contains a line longer than 10 whose
length is not 10; and with `maxLineWidth = 2` even a truncated node line
(Python slices `line[:-1]` for the negative bound) has length 30, not 2. -/
theorem C8_counterexample :
    ¬ (∀ l ∈ text_tree_lines egViz egNode "unicode" true true 10,
        10 < l.length → l.length = 10) ∧
    ((text_tree_lines egViz egNode "unicode" true true 2).getD 2 "" =
      "└── 📁 root (3 items, 30.0 B..." ∧
     ((text_tree_lines egViz egNode "unicode" true true 2).getD 2 "").length = 30) := by
  have hE : text_tree_lines egViz egNode "unicode" true true 10 =
      ["📁 root (1 folders, 2 files, 30.0 B)", "", "└── 📁 r...", "    ├──...",
       "    │  ...", "    └──..."] := by
    simp +decide [egViz, egNode, text_tree_lines, text_header, render_node_text,
      render_children, node_label, composedLine, truncLine, pySliceTo,
      get_file_icon, icon_map, styles, format_size, sizeUnit, fsLoopF, round1f,
      size_names, strLower, rootPathStr, Node.name, Node.size, Node.file_count,
      Node.folder_count]
  have hE2 : text_tree_lines egViz egNode "unicode" true true 2 =
      ["📁 root (1 folders, 2 files, 30.0 B)", "", "└── 📁 root (3 items, 30.0 B...",
       "    ├── 📁 sub (1 items, 20.0 B...", "    │   └── 🐍 b.py (20.0 B...",
       "    └── 📄 a.txt (10.0 B..."] := by
    simp +decide [egViz, egNode, text_tree_lines, text_header, render_node_text,
      render_children, node_label, composedLine, truncLine, pySliceTo,
      get_file_icon, icon_map, styles, format_size, sizeUnit, fsLoopF, round1f,
      size_names, strLower, rootPathStr, Node.name, Node.size, Node.file_count,
      Node.folder_count]
  rw [hE, hE2]
  refine ⟨by decide, by decide, by decide⟩

/-- Witness for C10 at a freshly constructed visualizer. -/
theorem C10_no_data_witness :
    render_text_tree initVisualizer "unicode" true true 100 =
      "No tree data available. Please scan a directory first." ∧
    export_html initVisualizer = Except.error "No tree data available" ∧
    export_json initVisualizer = Except.error "No tree data available" :=
  ⟨(C10_no_data initVisualizer rfl).1 "unicode" true true 100,
   (C10_no_data initVisualizer rfl).2.1, (C10_no_data initVisualizer rfl).2.2⟩
